import Mathlib

/-!
# Verification of the xlsx document engine against its specification

The repository's public surface (`src/src/xlsx/__init__.py`) re-exports
`load_workbook`, `Book`, `Sheet`, `Cell` from a native `_core` module whose
source is not part of the repository checkout; only the Python wrapper and the
tests (`src/test.py`, `src/test_style.py`) are present.  The engine itself is
therefore modelled here from the specification (`spec.md`), component by
component.  Every definition whose doc string begins `Modelled from the spec:`
embeds a part of that missing engine, faithful to the spec's words; the tests
under `src/` are used as concrete oracles where they apply.
-/

namespace Xlsx

/-- Modelled from the spec: the names of the parts inside the OOXML ZIP
container (spec §6).  The concrete strings (`"[Content_Types].xml"`,
`"xl/workbook.xml"`, `"xl/sharedStrings.xml"`, `"xl/styles.xml"`,
`"xl/worksheets/sheetN.xml"`) are abstracted into a tagged type, since no claim
depends on the literal spelling of a part name; `sheet i` stands for the part
path of the i-th worksheet (0-based) and `other` covers every remaining part
(relationships, content types of custom parts, images, ...). -/
inductive PartName where
  | contentTypes
  | workbook
  | sharedStrings
  | styles
  | sheet (i : Nat)
  | other (s : String)
deriving DecidableEq, Repr

/-- Modelled from the spec: the error taxonomy of §7. -/
inductive XlsxError where
  | corruptArchive
  | unsupportedFormat
  | structuralParseError (part : PartName)
  | sheetNotFound
  | duplicateSheetName
  | invalidAddress
  | indexOutOfRange
deriving DecidableEq, Repr

/-! ## Cell Reference Resolver (spec §4.5, §6)

Pure functions converting between addresses like `"B2"` and 1-based
`(row, column)` pairs.  Column letters use bijective base-26
(`A=1 … Z=26, AA=27 …`); the accepted address syntax is
`^[A-Za-z]{1,3}[1-9][0-9]*$`. -/

/-- `[A-Za-z]` as a character-code test. -/
def isAsciiLetter (c : Char) : Bool :=
  (65 ≤ c.toNat && c.toNat ≤ 90) || (97 ≤ c.toNat && c.toNat ≤ 122)

/-- `[0-9]` as a character-code test. -/
def isAsciiDigit (c : Char) : Bool :=
  48 ≤ c.toNat && c.toNat ≤ 57

/-- ASCII uppercasing of a single character. -/
def upChar (c : Char) : Char :=
  if 97 ≤ c.toNat && c.toNat ≤ 122 then Char.ofNat (c.toNat - 32) else c

/-- ASCII uppercasing of a string (the canonical form of an address). -/
def upcase (s : String) : String :=
  String.mk (s.data.map upChar)

/-- Bijective base-26 value of a column letter, case-insensitive:
`A`/`a` ↦ 1, …, `Z`/`z` ↦ 26. -/
def letterVal (c : Char) : Nat :=
  if 97 ≤ c.toNat then c.toNat - 96 else c.toNat - 64

/-- Value of a decimal digit character. -/
def digitVal (c : Char) : Nat := c.toNat - 48

/-- Modelled from the spec: fold of column letters into a bijective base-26
column number (the parsing half of §4.5's resolver). -/
def parseColAcc (acc : Nat) (cs : List Char) : Nat :=
  cs.foldl (fun a c => a * 26 + letterVal c) acc

/-- Modelled from the spec: fold of row digits into a decimal row number. -/
def parseRowAcc (acc : Nat) (cs : List Char) : Nat :=
  cs.foldl (fun a c => a * 10 + digitVal c) acc

/-- Modelled from the spec: bijective base-26 rendering of a 1-based column
number as uppercase letters (`format`'s column half, §4.5); `0` (no column)
renders as the empty list. -/
def colToChars (c : Nat) : List Char :=
  if c = 0 then [] else
    colToChars ((c - 1) / 26) ++ [Char.ofNat (65 + (c - 1) % 26)]
termination_by c
decreasing_by
  simp_wf
  omega

/-- Modelled from the spec: decimal rendering of a row number, most
significant digit first; `0` renders as the empty list. -/
def rowToChars (n : Nat) : List Char :=
  if n = 0 then [] else
    rowToChars (n / 10) ++ [Char.ofNat (48 + n % 10)]
termination_by n
decreasing_by
  simp_wf
  omega

/-- Modelled from the spec: `parse(address) -> (row, column)` (§4.5).  The
address is split into its maximal leading letter run and the remainder; it is
accepted exactly when the letter run has length 1–3 and the remainder is a
nonempty digit run with no leading zero (the syntax
`^[A-Za-z]{1,3}[1-9][0-9]*$` of §6, zero row excluded); otherwise the resolver
fails with `InvalidAddress`. -/
def parse (s : String) : Except XlsxError (Nat × Nat) :=
  let cs := s.data
  let ls := cs.takeWhile isAsciiLetter
  let ds := cs.dropWhile isAsciiLetter
  if 1 ≤ ls.length && ls.length ≤ 3 && !ds.isEmpty && ds.all isAsciiDigit
      && !(ds.head? == some '0') then
    .ok (parseRowAcc 0 ds, parseColAcc 0 ls)
  else
    .error .invalidAddress

/-- Modelled from the spec: `format(row, column) -> address`, the exact
inverse of `parse` (§4.5). -/
def format (row column : Nat) : String :=
  String.mk (colToChars column ++ rowToChars row)

/-- The address regular expression `^[A-Za-z]{1,3}[1-9][0-9]*$` of spec §6,
transliterated directly as an existential decomposition: one to three ASCII
letters followed by a nonempty digit run whose first digit is not zero.  This
is the spec-side description against which `parse` is compared. -/
def matchesAddrRegex (s : String) : Prop :=
  ∃ L D : List Char, s.data = L ++ D ∧ 1 ≤ L.length ∧ L.length ≤ 3 ∧
    (∀ c ∈ L, isAsciiLetter c) ∧ D ≠ [] ∧ (∀ c ∈ D, isAsciiDigit c) ∧
    D.head? ≠ some '0'

/-! ## Shared String Table and Style Table (spec §4.3, §4.4)

Both are ordered, append-only, dedup-by-content pools addressed by integer
index; the style table keys on full value equality of the formatting record.
The two share one generic `intern`/`resolve` pair over a `DecidableEq`
element type. -/

/-- Index of the first entry equal to `x`, by content equality. -/
def idxOf? {α : Type} [DecidableEq α] : List α → α → Option Nat
  | [], _ => none
  | y :: ys, x => if y = x then some 0 else (idxOf? ys x).map (· + 1)

/-- Modelled from the spec: `intern(x) -> index` — returns the existing index
if `x` is already present (exact content match), else appends and returns the
new index (spec §4.3, §4.4).  Returns the possibly-extended table together
with the index. -/
def intern {α : Type} [DecidableEq α] (tbl : List α) (x : α) : List α × Nat :=
  match idxOf? tbl x with
  | some i => (tbl, i)
  | none => (tbl ++ [x], tbl.length)

/-- Modelled from the spec: `resolve(index) -> entry`, failing with
`IndexOutOfRange` if the index has no entry (spec §4.3). -/
def resolve {α : Type} (tbl : List α) (i : Nat) : Except XlsxError α :=
  match tbl[i]? with
  | some x => .ok x
  | none => .error .indexOutOfRange

/-- Modelled from the spec: font descriptor; fields as exercised by
`src/test_style.py` (`Font(name=, size=, bold=, color=)`). -/
structure Font where
  name : Option String := none
  size : Option Nat := none
  bold : Bool := false
  color : Option String := none
deriving DecidableEq, Repr

/-- Modelled from the spec: pattern fill descriptor, as exercised by
`src/test_style.py` (`PatternFill(pattern_type=, fg_color=)`). -/
structure PatternFill where
  patternType : Option String := none
  fgColor : Option String := none
deriving DecidableEq, Repr

/-- Modelled from the spec: a style record is the composite
font/fill/border/number-format formatting descriptor (spec §4.4, glossary). -/
structure StyleRecord where
  font : Option Font := none
  fill : Option PatternFill := none
  border : Option String := none
  numFmt : Option String := none
deriving DecidableEq, Repr

/-- The default/empty style that occupies reserved index 0 (spec §4.4). -/
def defaultStyle : StyleRecord := {}

/-! ## Document Model (spec §3, §4.6) -/

/-- Modelled from the spec: a cell value is a closed tagged variant — empty,
numeric, string by reference into the Shared String Table, inline string, or
boolean — normalized to a textual representation at the API boundary
(spec §3, §9).  `num` carries the canonical textual form the codec chose. -/
inductive CellValue where
  | empty
  | num (s : String)
  | shared (i : Nat)
  | inlineStr (s : String)
  | boolV (b : Bool)
deriving DecidableEq, Repr

/-- Modelled from the spec: a cell holds a value and an optional style index
into the Style Table (spec §3). -/
structure Cell where
  value : CellValue := .empty
  styleIdx : Option Nat := none
deriving DecidableEq, Repr

/-- The auto-vivified empty cell: no value, default style. -/
def emptyCell : Cell := {}

/-- The textual view of a cell value at the public boundary: empty is the
missing representation (`None` in Python), a numeric cell reads back as its
canonical textual form, a shared string is resolved through the Shared String
Table, booleans use the OOXML `0`/`1` encoding (spec §3, §9). -/
def CellValue.text (sst : List String) : CellValue → Option String
  | .empty => none
  | .num s => some s
  | .shared i => sst[i]?
  | .inlineStr s => some s
  | .boolV b => some (if b then "1" else "0")

/-- Modelled from the spec: a sheet owns a sparse mapping from 1-based
(row, column) coordinates to cells; absent coordinates are logically empty
cells (spec §3). -/
structure Sheet where
  name : String
  cells : List ((Nat × Nat) × Cell) := []
deriving DecidableEq, Repr

/-- First cell stored at a coordinate, if any. -/
def lookupCell (cells : List ((Nat × Nat) × Cell)) (coord : Nat × Nat) :
    Option Cell :=
  match cells with
  | [] => none
  | (c0, cl) :: rest => if c0 = coord then some cl else lookupCell rest coord

/-- Replace the cell stored at a coordinate, or append a new binding if the
coordinate was never written. -/
def updateCells (cells : List ((Nat × Nat) × Cell)) (coord : Nat × Nat)
    (cl : Cell) : List ((Nat × Nat) × Cell) :=
  match cells with
  | [] => [(coord, cl)]
  | (c0, cl0) :: rest =>
    if c0 = coord then (coord, cl) :: rest
    else (c0, cl0) :: updateCells rest coord cl

/-- Modelled from the spec: reading the cell at a coordinate auto-vivifies an
empty cell if none exists there — never an error (spec §3 Lifecycle, §4.6
`get_cell`). -/
def Sheet.cellAt (sh : Sheet) (row column : Nat) : Cell :=
  (lookupCell sh.cells (row, column)).getD emptyCell

/-- Modelled from the spec: the `sheet.cell(row=, column=)` accessor of the
public API (spec §6; `src/test.py` line 51). -/
def Sheet.cell (sh : Sheet) (row column : Nat) : Cell :=
  sh.cellAt row column

/-- Modelled from the spec: indexing a sheet by address string (`ws["B2"]`,
spec §6): the address is parsed by the Cell Reference Resolver, then the cell
is read at the resulting coordinate. -/
def Sheet.atAddr (sh : Sheet) (addr : String) : Except XlsxError Cell :=
  match parse addr with
  | .error e => .error e
  | .ok (r, c) => .ok (sh.cellAt r c)

/-- Modelled from the spec: writing a value through a cell handle stores the
given text as-is (no type coercion, spec §4.6 `set_cell_value`); the style
index of an already-present cell is preserved. -/
def Sheet.setValueAt (sh : Sheet) (row column : Nat) (text : String) : Sheet :=
  let old := sh.cellAt row column
  let newCells := updateCells sh.cells (row, column)
    { old with value := .inlineStr text }
  { sh with cells := newCells }

/-! ## Archive and load/save orchestration (spec §4.1, §4.2, §4.6)

The Archive Adapter exposes the ZIP container as a mapping from part names to
byte buffers and never interprets the bytes (spec §4.1).  The XML Part Codec's
encoded byte buffers are abstracted as the tagged type `PartBytes`: a buffer
either decodes as one of the four modelled part dialects or is an opaque
`rawPart`.  Byte-identity of buffers is modelled as equality of `PartBytes`
values; consequently a part regenerated from unchanged in-memory content and a
part passed through verbatim coincide, which is exactly the fidelity the spec
demands of `save` (spec §4.6). -/

/-- Modelled from the spec: the decoded byte buffer of a single named part.
`wbPart` carries the workbook part's ordered sheet names (with the
relationships part collapsed in: sheet `i` of the list resolves to part name
`PartName.sheet i`); `sheetPart` a worksheet's sparse cell grid; `sstPart` the
shared strings; `stylesPart` the style records; `rawPart` an arbitrary
uninterpreted buffer. -/
inductive PartBytes where
  | wbPart (sheetNames : List String)
  | sheetPart (cells : List ((Nat × Nat) × Cell))
  | sstPart (strs : List String)
  | stylesPart (records : List StyleRecord)
  | rawPart (data : String)
deriving DecidableEq, Repr

/-- An archive: ordered mapping from part name to (decoded) part bytes. -/
abbrev Archive := List (PartName × PartBytes)

/-- First part stored under a name, if any (the Archive Adapter's mapping
lookup, spec §4.1). -/
def lookupPart (a : List (PartName × PartBytes)) (n : PartName) :
    Option PartBytes :=
  match a with
  | [] => none
  | (n0, b) :: rest => if n0 = n then some b else lookupPart rest n

/-- Modelled from the spec: the Workbook owns the ordered sheets, the Shared
String Table, the Style Table, and the raw parts not otherwise modelled, kept
as opaque pass-through bytes (spec §3). -/
structure Workbook where
  sheets : List Sheet := []
  sst : List String := []
  styleTable : List StyleRecord := []
  passthrough : List (PartName × PartBytes) := []
deriving DecidableEq, Repr

/-- Modelled from the spec: `sheet_names()` — ordered sheet names
(spec §4.6). -/
def Workbook.sheetNames (wb : Workbook) : List String :=
  wb.sheets.map Sheet.name

/-- Modelled from the spec: `get_sheet(name)`, failing with `SheetNotFound`
if absent (spec §4.6). -/
def Workbook.getSheet (wb : Workbook) (name : String) :
    Except XlsxError Sheet :=
  match wb.sheets.find? (fun sh => sh.name = name) with
  | some sh => .ok sh
  | none => .error .sheetNotFound

/-- Modelled from the spec: `get_cell(sheet, address)` — parses the address,
looks up the sheet, auto-vivifies an empty cell at the coordinate
(spec §4.6). -/
def Workbook.getCell (wb : Workbook) (sname addr : String) :
    Except XlsxError Cell :=
  match parse addr with
  | .error e => .error e
  | .ok (r, c) =>
    match wb.getSheet sname with
    | .error e => .error e
    | .ok sh => .ok (sh.cellAt r c)

/-- The externally observable text of the cell at a coordinate of a named
sheet (`None`/`none` when the sheet is absent or the cell is empty). -/
def Workbook.valueAt (wb : Workbook) (sname : String) (row column : Nat) :
    Option String :=
  match wb.getSheet sname with
  | .ok sh => (sh.cellAt row column).value.text wb.sst
  | .error _ => none

/-- The externally observable style index of the cell at a coordinate of a
named sheet. -/
def Workbook.styleIdxAt (wb : Workbook) (sname : String) (row column : Nat) :
    Option Nat :=
  match wb.getSheet sname with
  | .ok sh => (sh.cellAt row column).styleIdx
  | .error _ => none

/-- The per-sheet action of `set_cell_value`: update the named sheet, leave
every other sheet untouched. -/
def setValueOne (sname : String) (r c : Nat) (text : String) (sh : Sheet) :
    Sheet :=
  if sh.name = sname then sh.setValueAt r c text else sh

/-- Modelled from the spec: `set_cell_value(sheet, address, text)` stores the
text without type coercion (spec §4.6); the underlying XML value-type
attribute is the codec's choice at encode time, not the caller's. -/
def Workbook.setCellValue (wb : Workbook) (sname addr text : String) :
    Except XlsxError Workbook :=
  match parse addr with
  | .error e => .error e
  | .ok (r, c) =>
    match wb.getSheet sname with
    | .error e => .error e
    | .ok _ =>
      .ok { wb with sheets := wb.sheets.map (setValueOne sname r c text) }

/-- The successful branch of `Workbook.setCellStyle`: intern the record,
attach the resulting index to the cell at the coordinate. -/
def setStyleAt (wb : Workbook) (sname : String) (rc : Nat × Nat)
    (rec : StyleRecord) : Workbook :=
  let ti := intern wb.styleTable rec
  let styleOne := fun (sh : Sheet) =>
    let newCells := updateCells sh.cells rc
      { sh.cellAt rc.1 rc.2 with styleIdx := some ti.2 }
    { sh with cells := newCells }
  let newSheets := wb.sheets.map
    (fun sh => if sh.name = sname then styleOne sh else sh)
  { wb with styleTable := ti.1, sheets := newSheets }

/-- Modelled from the spec: `set_cell_style(sheet, address, style_record)`
interns the record into the Style Table and attaches the resulting index to
the cell (spec §4.6). -/
def Workbook.setCellStyle (wb : Workbook) (sname addr : String)
    (rec : StyleRecord) : Except XlsxError Workbook :=
  match parse addr with
  | .error e => .error e
  | .ok rc =>
    match wb.getSheet sname with
    | .error e => .error e
    | .ok _ => .ok (setStyleAt wb sname rc rec)


/-- Modelled from the spec: loading the worksheet parts named by the workbook
part, in order; sheet `i` must be present and decode as a worksheet, else a
structural parse error carrying that part name is fatal (spec §4.2, §7). -/
def loadSheets (a : Archive) : List String → Nat → Except XlsxError (List Sheet)
  | [], _ => .ok []
  | n :: rest, i =>
    match lookupPart a (.sheet i) with
    | some (.sheetPart cells) =>
      match loadSheets a rest (i + 1) with
      | .ok sheets => .ok ({ name := n, cells := cells } :: sheets)
      | .error e => .error e
    | _ => .error (.structuralParseError (.sheet i))

/-- The part names `load` consumes into the in-memory model (everything else
is kept as opaque pass-through, spec §3, §9 design notes). -/
def consumedNames (numSheets : Nat) : List PartName :=
  [.workbook, .sharedStrings, .styles] ++ (List.range numSheets).map .sheet

/-- Modelled from the spec: `load(archive bytes) -> Workbook` (spec §4.6).
Fails with `CorruptArchive` when the container lacks the mandatory
content-types part (§4.1), with `UnsupportedFormat` when the container is not
recognizable as a spreadsheet package (no workbook part), with a structural
parse error naming the part when a required part does not decode (§4.2, §7).
Absent or undecodable optional parts (shared strings, styles) default to
empty tables and are never an error (§7); unconsumed parts are captured as
pass-through. -/
def load (a : Archive) : Except XlsxError Workbook :=
  match lookupPart a .contentTypes with
  | none => .error .corruptArchive
  | some _ =>
    match lookupPart a .workbook with
    | none => .error .unsupportedFormat
    | some (.wbPart names) =>
      match loadSheets a names 0 with
      | .error e => .error e
      | .ok sheets =>
        let sst := match lookupPart a .sharedStrings with
          | some (.sstPart s) => s
          | _ => []
        let sts := match lookupPart a .styles with
          | some (.stylesPart s) => s
          | _ => []
        .ok { sheets := sheets, sst := sst, styleTable := sts,
              passthrough :=
                a.filter (fun p => !((consumedNames names.length).contains p.1)) }
    | some _ => .error (.structuralParseError .workbook)

/-- The generated worksheet part entries of `save`, one per sheet in display
order. -/
def sheetEntries : Nat → List Sheet → List (PartName × PartBytes)
  | _, [] => []
  | i, sh :: rest => (.sheet i, .sheetPart sh.cells) :: sheetEntries (i + 1) rest

/-- Modelled from the spec: `save(Workbook) -> archive bytes` — the inverse
orchestration of `load` (spec §4.6): the modelled parts (workbook, shared
strings, styles, worksheets) are emitted from the in-memory state, every
pass-through part is emitted byte-identical to the source archive.  Under the
`PartBytes` abstraction a part regenerated from unchanged content equals the
captured original, so the dirty-part optimization of §4.6 is
observation-equivalent to full regeneration. -/
def save (wb : Workbook) : Archive :=
  (.workbook, .wbPart (wb.sheets.map Sheet.name))
    :: (.sharedStrings, .sstPart wb.sst)
    :: (.styles, .stylesPart wb.styleTable)
    :: (sheetEntries 0 wb.sheets ++ wb.passthrough)

/-- Modelled from the spec: `save` as a state transition — it emits the
archive bytes and is a side-effect-only transition back to the same Workbook
state (spec §4.6 state machine). -/
def saveOp (wb : Workbook) : Archive × Workbook :=
  (save wb, wb)

/-- Modelled from the spec: a from-scratch Workbook — empty, one default
sheet, freshly generated default pass-through parts (spec §3 Lifecycle,
§4.6 `save`). -/
def Workbook.new : Workbook :=
  { sheets := [{ name := "Sheet1" }],
    passthrough := [(.contentTypes, .rawPart "default-content-types")] }

/-- The structural invariant every Workbook produced by `load` (or `new`)
satisfies: the mandatory content-types part is among the pass-through parts,
and no pass-through part shadows a part name that `save` regenerates. -/
def Workbook.wellFormed (wb : Workbook) : Prop :=
  (lookupPart wb.passthrough .contentTypes).isSome = true ∧
  ∀ p ∈ wb.passthrough, p.1 ∉ consumedNames wb.sheets.length

/-- A miniature of `data/sample.xlsx` from `src/test.py`: one sheet named
`"Sheet1"` with numeric cells A1=1.0, B1=3.0, B2=4.0, plus the mandatory
container parts; used as the concrete input of several witnesses. -/
def arch0 : Archive :=
  [(.contentTypes, .rawPart "ct"),
   (.other "_rels/.rels", .rawPart "rels"),
   (.workbook, .wbPart ["Sheet1"]),
   (.sheet 0, .sheetPart
     [((1, 1), { value := .num "1.0" }),
      ((1, 2), { value := .num "3.0" }),
      ((2, 2), { value := .num "4.0" })]),
   (.sharedStrings, .sstPart ["Hello", "World"])]

/-- The single sheet of `arch0` as loaded. -/
def sheet0 : Sheet :=
  { name := "Sheet1",
    cells := [((1, 1), { value := .num "1.0" }),
              ((1, 2), { value := .num "3.0" }),
              ((2, 2), { value := .num "4.0" })] }

/-- The Workbook that `load arch0` produces. -/
def wb0 : Workbook :=
  { sheets := [sheet0],
    sst := ["Hello", "World"],
    styleTable := [],
    passthrough := [(.contentTypes, .rawPart "ct"),
                    (.other "_rels/.rels", .rawPart "rels")] }

/-- `wb0` after the `src/test.py` scenario edit: A1 set to `"99.9"`. -/
def wb0set : Workbook :=
  (wb0.setCellValue "Sheet1" "A1" "99.9").toOption.getD wb0

/-- The Workbook loaded from a minimal archive with no sheets, no shared
strings and no styles part. -/
def wb8 : Workbook :=
  { sheets := [], sst := [], styleTable := [],
    passthrough := [(.contentTypes, .rawPart "ct")] }

/-! ## Character-level lemmas for the resolver -/

theorem toNat_ofNat_lt {n : Nat} (h : n < 55296) : (Char.ofNat n).toNat = n := by
  have hv : Nat.isValidChar n := Or.inl h
  rw [Char.ofNat, dif_pos hv]
  rfl

theorem isAsciiLetter_iff (c : Char) :
    isAsciiLetter c = true ↔
      (65 ≤ c.toNat ∧ c.toNat ≤ 90) ∨ (97 ≤ c.toNat ∧ c.toNat ≤ 122) := by
  simp [isAsciiLetter]

theorem isAsciiDigit_iff (c : Char) :
    isAsciiDigit c = true ↔ 48 ≤ c.toNat ∧ c.toNat ≤ 57 := by
  simp [isAsciiDigit]

theorem digit_not_letter {c : Char} (h : isAsciiDigit c = true) :
    isAsciiLetter c = false := by
  rw [isAsciiDigit_iff] at h
  rw [Bool.eq_false_iff]
  intro hl
  rw [isAsciiLetter_iff] at hl
  omega

theorem letterVal_bounds {c : Char} (h : isAsciiLetter c = true) :
    1 ≤ letterVal c ∧ letterVal c ≤ 26 := by
  rw [isAsciiLetter_iff] at h
  unfold letterVal
  rcases h with h | h
  · rw [if_neg (by omega)]
    omega
  · rw [if_pos (by omega)]
    omega

theorem digitVal_bounds {c : Char} (h : isAsciiDigit c = true) :
    digitVal c ≤ 9 := by
  rw [isAsciiDigit_iff] at h
  unfold digitVal
  omega

theorem upChar_digit {c : Char} (h : isAsciiDigit c = true) : upChar c = c := by
  rw [isAsciiDigit_iff] at h
  unfold upChar
  rw [if_neg]
  simp only [Bool.and_eq_true, decide_eq_true_eq, not_and]
  omega

theorem ofNat_letterVal_eq_upChar {c : Char} (h : isAsciiLetter c = true) :
    Char.ofNat (64 + letterVal c) = upChar c := by
  rw [isAsciiLetter_iff] at h
  rcases h with h | h
  · have hv : letterVal c = c.toNat - 64 := by
      unfold letterVal
      rw [if_neg (by omega)]
    have he : 64 + letterVal c = c.toNat := by omega
    rw [he, Char.ofNat_toNat]
    unfold upChar
    rw [if_neg]
    simp only [Bool.and_eq_true, decide_eq_true_eq, not_and]
    omega
  · have hv : letterVal c = c.toNat - 96 := by
      unfold letterVal
      rw [if_pos (by omega)]
    have he : 64 + letterVal c = c.toNat - 32 := by omega
    rw [he]
    unfold upChar
    rw [if_pos]
    simp only [Bool.and_eq_true, decide_eq_true_eq]
    omega

theorem letter_char_toNat {m : Nat} (h : m < 26) :
    (Char.ofNat (65 + m)).toNat = 65 + m :=
  toNat_ofNat_lt (by omega)

theorem letter_char_isLetter {m : Nat} (h : m < 26) :
    isAsciiLetter (Char.ofNat (65 + m)) = true := by
  rw [isAsciiLetter_iff, letter_char_toNat h]
  omega

theorem letter_char_val {m : Nat} (h : m < 26) :
    letterVal (Char.ofNat (65 + m)) = m + 1 := by
  unfold letterVal
  rw [letter_char_toNat h, if_neg (by omega)]
  omega

theorem digit_char_toNat {m : Nat} (h : m < 10) :
    (Char.ofNat (48 + m)).toNat = 48 + m :=
  toNat_ofNat_lt (by omega)

theorem digit_char_isDigit {m : Nat} (h : m < 10) :
    isAsciiDigit (Char.ofNat (48 + m)) = true := by
  rw [isAsciiDigit_iff, digit_char_toNat h]
  omega

theorem digit_char_val {m : Nat} (h : m < 10) :
    digitVal (Char.ofNat (48 + m)) = m := by
  unfold digitVal
  rw [digit_char_toNat h]
  omega

theorem digit_char_ne_zero {m : Nat} (h0 : 1 ≤ m) (h : m < 10) :
    Char.ofNat (48 + m) ≠ '0' := by
  intro he
  have := digit_char_toNat h
  rw [he] at this
  have h0' : ('0' : Char).toNat = 48 := by decide
  omega

/-! ## Column rendering and parsing are mutually inverse -/

theorem colToChars_zero : colToChars 0 = [] := by
  rw [colToChars]
  simp

theorem colToChars_succ {c : Nat} (h : c ≠ 0) :
    colToChars c =
      colToChars ((c - 1) / 26) ++ [Char.ofNat (65 + (c - 1) % 26)] := by
  conv_lhs => rw [colToChars]
  rw [if_neg h]

theorem colToChars_letters :
    ∀ c : Nat, ∀ x ∈ colToChars c, isAsciiLetter x = true := by
  intro c
  induction c using Nat.strong_induction_on with
  | _ c ih =>
    rcases Nat.eq_zero_or_pos c with hc | hc
    · subst hc
      rw [colToChars_zero]
      intro x hx
      exact absurd hx (List.not_mem_nil x)
    · rw [colToChars_succ (by omega)]
      intro x hx
      rcases List.mem_append.mp hx with hx | hx
      · exact ih ((c - 1) / 26) (by omega) x hx
      · rw [List.mem_singleton.mp hx]
        exact letter_char_isLetter (Nat.mod_lt _ (by omega))

theorem colToChars_ne_nil {c : Nat} (h : 1 ≤ c) : colToChars c ≠ [] := by
  rw [colToChars_succ (by omega)]
  simp

theorem colToChars_len1 {c : Nat} (h : c ≤ 26) : (colToChars c).length ≤ 1 := by
  rcases Nat.eq_zero_or_pos c with hc | hc
  · subst hc
    rw [colToChars_zero]
    simp
  · rw [colToChars_succ (by omega)]
    have h26 : (c - 1) / 26 = 0 := Nat.div_eq_of_lt (by omega)
    rw [h26, colToChars_zero]
    simp

theorem colToChars_len2 {c : Nat} (h : c ≤ 702) : (colToChars c).length ≤ 2 := by
  rcases Nat.eq_zero_or_pos c with hc | hc
  · subst hc
    rw [colToChars_zero]
    simp
  · rw [colToChars_succ (by omega)]
    have hinner : (colToChars ((c - 1) / 26)).length ≤ 1 :=
      colToChars_len1 (by omega)
    simp only [List.length_append, List.length_singleton]
    omega

theorem colToChars_len3 {c : Nat} (h : c ≤ 18278) :
    (colToChars c).length ≤ 3 := by
  rcases Nat.eq_zero_or_pos c with hc | hc
  · subst hc
    rw [colToChars_zero]
    simp
  · rw [colToChars_succ (by omega)]
    have hinner : (colToChars ((c - 1) / 26)).length ≤ 2 :=
      colToChars_len2 (by omega)
    simp only [List.length_append, List.length_singleton]
    omega

theorem parseColAcc_nil (a : Nat) : parseColAcc a [] = a := rfl

theorem parseColAcc_cons (a : Nat) (c : Char) (cs : List Char) :
    parseColAcc a (c :: cs) = parseColAcc (a * 26 + letterVal c) cs := rfl

theorem parseRowAcc_nil (a : Nat) : parseRowAcc a [] = a := rfl

theorem parseRowAcc_cons (a : Nat) (c : Char) (cs : List Char) :
    parseRowAcc a (c :: cs) = parseRowAcc (a * 10 + digitVal c) cs := rfl

theorem parseColAcc_append (a : Nat) (xs : List Char) (c : Char) :
    parseColAcc a (xs ++ [c]) = (parseColAcc a xs) * 26 + letterVal c := by
  induction xs generalizing a with
  | nil => rfl
  | cons x xs ih => exact ih (a * 26 + letterVal x)

theorem parseColAcc_le (a : Nat) (xs : List Char) :
    a ≤ parseColAcc a xs := by
  induction xs generalizing a with
  | nil => exact Nat.le_refl a
  | cons x xs ih =>
    exact Nat.le_trans (by omega) (ih (a * 26 + letterVal x))

theorem parseColAcc_pos {ls : List Char} (hne : ls ≠ [])
    (hl : ∀ x ∈ ls, isAsciiLetter x = true) : 1 ≤ parseColAcc 0 ls := by
  match ls, hne with
  | x :: xs, _ =>
    have h1 := (letterVal_bounds (hl x (List.mem_cons_self x xs))).1
    exact Nat.le_trans (by omega : 1 ≤ 0 * 26 + letterVal x)
      (parseColAcc_le (0 * 26 + letterVal x) xs)

theorem parseColAcc_colToChars : ∀ c : Nat, parseColAcc 0 (colToChars c) = c := by
  intro c
  induction c using Nat.strong_induction_on with
  | _ c ih =>
    rcases Nat.eq_zero_or_pos c with hc | hc
    · subst hc
      rw [colToChars_zero]
      rfl
    · rw [colToChars_succ (by omega), parseColAcc_append,
          ih ((c - 1) / 26) (by omega),
          letter_char_val (Nat.mod_lt _ (by omega))]
      have := Nat.div_add_mod (c - 1) 26
      omega

theorem colToChars_parseColAcc :
    ∀ ls : List Char, ls ≠ [] → (∀ x ∈ ls, isAsciiLetter x = true) →
      colToChars (parseColAcc 0 ls) = ls.map upChar := by
  intro ls
  induction ls using List.reverseRecOn with
  | nil => intro h; exact absurd rfl h
  | append_singleton xs c ih =>
    intro _ hl
    have hc : isAsciiLetter c = true := hl c (by simp)
    have hxs : ∀ x ∈ xs, isAsciiLetter x = true := by
      intro x hx
      exact hl x (by simp [hx])
    have hv := letterVal_bounds hc
    rw [parseColAcc_append]
    by_cases hxs0 : xs = []
    · subst hxs0
      simp only [List.map_nil, List.nil_append, List.map_cons]
      rw [parseColAcc_nil]
      have hval : 0 * 26 + letterVal c = letterVal c := by omega
      rw [hval, colToChars_succ (by omega)]
      have hd : (letterVal c - 1) / 26 = 0 := Nat.div_eq_of_lt (by omega)
      have hm : (letterVal c - 1) % 26 = letterVal c - 1 :=
        Nat.mod_eq_of_lt (by omega)
      rw [hd, hm, colToChars_zero]
      have he : 65 + (letterVal c - 1) = 64 + letterVal c := by omega
      rw [he, ofNat_letterVal_eq_upChar hc]
      rfl
    · have hpos : 1 ≤ parseColAcc 0 xs := parseColAcc_pos hxs0 hxs
      have hn0 : parseColAcc 0 xs * 26 + letterVal c ≠ 0 := by omega
      rw [colToChars_succ hn0]
      have hmlt : (parseColAcc 0 xs * 26 + letterVal c - 1) % 26 < 26 :=
        Nat.mod_lt _ (by omega)
      have key := Nat.div_add_mod (parseColAcc 0 xs * 26 + letterVal c - 1) 26
      have hd : (parseColAcc 0 xs * 26 + letterVal c - 1) / 26 =
          parseColAcc 0 xs := by omega
      have hm : (parseColAcc 0 xs * 26 + letterVal c - 1) % 26 =
          letterVal c - 1 := by omega
      rw [hd, hm, ih hxs0 hxs]
      have he : 65 + (letterVal c - 1) = 64 + letterVal c := by omega
      rw [he, ofNat_letterVal_eq_upChar hc]
      simp

/-! ## Row rendering and parsing are mutually inverse -/

theorem rowToChars_zero : rowToChars 0 = [] := by
  rw [rowToChars]
  simp

theorem rowToChars_succ {n : Nat} (h : n ≠ 0) :
    rowToChars n = rowToChars (n / 10) ++ [Char.ofNat (48 + n % 10)] := by
  conv_lhs => rw [rowToChars]
  rw [if_neg h]

theorem rowToChars_digits :
    ∀ n : Nat, ∀ x ∈ rowToChars n, isAsciiDigit x = true := by
  intro n
  induction n using Nat.strong_induction_on with
  | _ n ih =>
    rcases Nat.eq_zero_or_pos n with hn | hn
    · subst hn
      rw [rowToChars_zero]
      intro x hx
      exact absurd hx (List.not_mem_nil x)
    · rw [rowToChars_succ (by omega)]
      intro x hx
      rcases List.mem_append.mp hx with hx | hx
      · exact ih (n / 10) (Nat.div_lt_self hn (by omega)) x hx
      · rw [List.mem_singleton.mp hx]
        exact digit_char_isDigit (Nat.mod_lt _ (by omega))

theorem rowToChars_ne_nil {n : Nat} (h : 1 ≤ n) : rowToChars n ≠ [] := by
  rw [rowToChars_succ (by omega)]
  simp

theorem rowToChars_head_ne_zero :
    ∀ n : Nat, 1 ≤ n → (rowToChars n).head? ≠ some '0' := by
  intro n
  induction n using Nat.strong_induction_on with
  | _ n ih =>
    intro hn
    rw [rowToChars_succ (by omega)]
    rcases Nat.lt_or_ge n 10 with hlt | hge
    · have hd : n / 10 = 0 := Nat.div_eq_of_lt hlt
      have hm : n % 10 = n := Nat.mod_eq_of_lt hlt
      rw [hd, hm, rowToChars_zero, List.nil_append]
      intro he
      exact digit_char_ne_zero hn hlt (Option.some.inj he)
    · have hpos : 1 ≤ n / 10 := Nat.one_le_div_iff (by omega) |>.mpr hge
      have hne := rowToChars_ne_nil hpos
      obtain ⟨x, xs, hx⟩ := List.exists_cons_of_ne_nil hne
      rw [hx, List.cons_append, List.head?_cons]
      have := ih (n / 10) (Nat.div_lt_self (by omega) (by omega)) hpos
      rw [hx, List.head?_cons] at this
      exact this

theorem parseRowAcc_append (a : Nat) (xs : List Char) (c : Char) :
    parseRowAcc a (xs ++ [c]) = (parseRowAcc a xs) * 10 + digitVal c := by
  induction xs generalizing a with
  | nil => rfl
  | cons x xs ih => exact ih (a * 10 + digitVal x)

theorem parseRowAcc_le (a : Nat) (xs : List Char) :
    a ≤ parseRowAcc a xs := by
  induction xs generalizing a with
  | nil => exact Nat.le_refl a
  | cons x xs ih =>
    exact Nat.le_trans (by omega) (ih (a * 10 + digitVal x))

theorem toNat_ne_48_of_ne_zero {c : Char} (h : c ≠ '0') : c.toNat ≠ 48 := by
  intro he
  apply h
  have h0 : Char.ofNat 48 = '0' := by decide
  rw [← Char.ofNat_toNat c, he, h0]

theorem parseRowAcc_pos {ds : List Char} (hne : ds ≠ [])
    (hd : ∀ x ∈ ds, isAsciiDigit x = true) (h0 : ds.head? ≠ some '0') :
    1 ≤ parseRowAcc 0 ds := by
  match ds, hne with
  | d :: rest, _ =>
    have hdd : isAsciiDigit d = true := hd d (List.mem_cons_self d rest)
    have hne0 : d ≠ '0' := by
      intro he
      exact h0 (by rw [List.head?_cons, he])
    have h48 := toNat_ne_48_of_ne_zero hne0
    rw [isAsciiDigit_iff] at hdd
    have hv : 1 ≤ digitVal d := by
      unfold digitVal
      omega
    exact Nat.le_trans (by omega : 1 ≤ 0 * 10 + digitVal d)
      (parseRowAcc_le (0 * 10 + digitVal d) rest)

theorem parseRowAcc_rowToChars : ∀ n : Nat, parseRowAcc 0 (rowToChars n) = n := by
  intro n
  induction n using Nat.strong_induction_on with
  | _ n ih =>
    rcases Nat.eq_zero_or_pos n with hn | hn
    · subst hn
      rw [rowToChars_zero]
      rfl
    · rw [rowToChars_succ (by omega), parseRowAcc_append,
          ih (n / 10) (Nat.div_lt_self hn (by omega)),
          digit_char_val (Nat.mod_lt _ (by omega))]
      have := Nat.div_add_mod n 10
      omega

theorem rowToChars_parseRowAcc :
    ∀ ds : List Char, ds ≠ [] → (∀ x ∈ ds, isAsciiDigit x = true) →
      ds.head? ≠ some '0' → rowToChars (parseRowAcc 0 ds) = ds := by
  intro ds
  induction ds using List.reverseRecOn with
  | nil => intro h; exact absurd rfl h
  | append_singleton xs d ih =>
    intro _ hd h0
    have hdd : isAsciiDigit d = true := hd d (by simp)
    have hdb := (isAsciiDigit_iff d).mp hdd
    have hxs : ∀ x ∈ xs, isAsciiDigit x = true := by
      intro x hx
      exact hd x (by simp [hx])
    rw [parseRowAcc_append]
    by_cases hxs0 : xs = []
    · subst hxs0
      simp only [List.nil_append]
      rw [parseRowAcc_nil]
      have hne0 : d ≠ '0' := by
        intro he
        apply h0
        rw [List.nil_append, List.head?_cons, he]
      have h48 := toNat_ne_48_of_ne_zero hne0
      have hval : 0 * 10 + digitVal d = digitVal d := by omega
      have hv : 1 ≤ digitVal d ∧ digitVal d ≤ 9 := by
        unfold digitVal
        omega
      rw [hval, rowToChars_succ (by omega)]
      have hdiv : digitVal d / 10 = 0 := Nat.div_eq_of_lt (by omega)
      have hmod : digitVal d % 10 = digitVal d := Nat.mod_eq_of_lt (by omega)
      rw [hdiv, hmod, rowToChars_zero]
      have he : 48 + digitVal d = d.toNat := by
        unfold digitVal
        omega
      rw [he, Char.ofNat_toNat]
      simp
    · obtain ⟨x, xs', hx⟩ := List.exists_cons_of_ne_nil hxs0
      have h0' : xs.head? ≠ some '0' := by
        rw [hx, List.head?_cons]
        rw [hx, List.cons_append, List.head?_cons] at h0
        exact h0
      have hpos : 1 ≤ parseRowAcc 0 xs := parseRowAcc_pos hxs0 hxs h0'
      have hv : digitVal d ≤ 9 := by
        unfold digitVal
        omega
      rw [rowToChars_succ (by omega)]
      have hmlt : (parseRowAcc 0 xs * 10 + digitVal d) % 10 < 10 :=
        Nat.mod_lt _ (by omega)
      have key := Nat.div_add_mod (parseRowAcc 0 xs * 10 + digitVal d) 10
      have hdiv : (parseRowAcc 0 xs * 10 + digitVal d) / 10 =
          parseRowAcc 0 xs := by omega
      have hmod : (parseRowAcc 0 xs * 10 + digitVal d) % 10 = digitVal d := by
        omega
      rw [hdiv, hmod, ih hxs0 hxs h0']
      have he : 48 + digitVal d = d.toNat := by
        unfold digitVal
        omega
      rw [he, Char.ofNat_toNat]

/-! ## Address decomposition: letters then digits -/

theorem takeWhile_letters {L D : List Char}
    (hL : ∀ c ∈ L, isAsciiLetter c = true)
    (hD : ∀ d, D.head? = some d → isAsciiLetter d = false) :
    (L ++ D).takeWhile isAsciiLetter = L ∧
      (L ++ D).dropWhile isAsciiLetter = D := by
  induction L with
  | nil =>
    simp only [List.nil_append]
    cases D with
    | nil => exact ⟨rfl, rfl⟩
    | cons d rest =>
      have hd : isAsciiLetter d = false := hD d rfl
      exact ⟨List.takeWhile_cons_of_neg (by simp [hd]),
             List.dropWhile_cons_of_neg (by simp [hd])⟩
  | cons x L ih =>
    have hx : isAsciiLetter x = true := hL x (List.mem_cons_self x L)
    have hL2 : ∀ c ∈ L, isAsciiLetter c = true := by
      intro c hc
      exact hL c (List.mem_cons_of_mem x hc)
    obtain ⟨h1, h2⟩ := ih hL2
    constructor
    · rw [List.cons_append, List.takeWhile_cons_of_pos hx, h1]
    · rw [List.cons_append, List.dropWhile_cons_of_pos hx, h2]

theorem map_upChar_digits {D : List Char}
    (hD : ∀ x ∈ D, isAsciiDigit x = true) : D.map upChar = D := by
  induction D with
  | nil => rfl
  | cons d rest ih =>
    rw [List.map_cons, upChar_digit (hD d (List.mem_cons_self d rest)),
        ih (fun x hx => hD x (List.mem_cons_of_mem d hx))]

theorem parse_ok_decomp {s : String} {L D : List Char}
    (hsd : s.data = L ++ D) (hl1 : 1 ≤ L.length) (hl3 : L.length ≤ 3)
    (hL : ∀ c ∈ L, isAsciiLetter c = true) (hDne : D ≠ [])
    (hD : ∀ c ∈ D, isAsciiDigit c = true) (h0 : D.head? ≠ some '0') :
    parse s = .ok (parseRowAcc 0 D, parseColAcc 0 L) := by
  have hDhead : ∀ d, D.head? = some d → isAsciiLetter d = false := by
    intro d hd
    exact digit_not_letter (hD d (List.mem_of_mem_head? (by simp [hd])))
  obtain ⟨hT, hDr⟩ := takeWhile_letters hL hDhead
  simp only [parse, hsd, hT, hDr]
  have hguard : (1 ≤ L.length && L.length ≤ 3 && !D.isEmpty
      && D.all isAsciiDigit && !(D.head? == some '0')) = true := by
    simp only [Bool.and_eq_true, Bool.not_eq_true', decide_eq_true_eq,
               List.all_eq_true, beq_eq_false_iff_ne]
    refine ⟨⟨⟨⟨hl1, hl3⟩, ?_⟩, hD⟩, h0⟩
    simp [hDne]
  rw [if_pos hguard]

theorem regex_of_parse_ok {s : String} {rc : Nat × Nat}
    (h : parse s = .ok rc) : matchesAddrRegex s := by
  by_cases hguard : (1 ≤ (s.data.takeWhile isAsciiLetter).length
      && (s.data.takeWhile isAsciiLetter).length ≤ 3
      && !(s.data.dropWhile isAsciiLetter).isEmpty
      && (s.data.dropWhile isAsciiLetter).all isAsciiDigit
      && !((s.data.dropWhile isAsciiLetter).head? == some '0')) = true
  · simp only [Bool.and_eq_true, Bool.not_eq_true', decide_eq_true_eq,
               List.all_eq_true, beq_eq_false_iff_ne] at hguard
    obtain ⟨⟨⟨⟨hl1, hl3⟩, hne⟩, hdig⟩, h0⟩ := hguard
    refine ⟨s.data.takeWhile isAsciiLetter, s.data.dropWhile isAsciiLetter,
            (List.takeWhile_append_dropWhile isAsciiLetter s.data).symm,
            hl1, hl3, ?_, ?_, hdig, h0⟩
    · intro c hc
      exact List.mem_takeWhile_imp hc
    · exact List.isEmpty_eq_false.mp hne
  · exfalso
    simp only [parse] at h
    rw [if_neg hguard] at h
    exact Except.noConfusion h

/-- Claim C4: the cell-address functions `parse` and `format` are mutually
inverse — for every valid 1-based pair (row, column) with the column within
the three-letter bound (18278 = ZZZ), `parse (format row column)` returns
exactly `(row, column)`; and for every address string matching the accepted
syntax, formatting the parse result reproduces the uppercased canonical form
of the string, the column letters being bijective base-26 (A=1 … Z=26,
AA=27 …). -/
theorem claim_C4_parse_format_bijection :
    (∀ row column : Nat, 1 ≤ row → 1 ≤ column → column ≤ 18278 →
        parse (format row column) = .ok (row, column)) ∧
    (∀ s : String, matchesAddrRegex s →
        ∃ row column : Nat, parse s = .ok (row, column) ∧
          format row column = upcase s) := by
  constructor
  · intro row column hr hc hb
    have hsd : (format row column).data =
        colToChars column ++ rowToChars row := rfl
    have h := parse_ok_decomp hsd
      (List.length_pos.mpr (colToChars_ne_nil hc)) (colToChars_len3 hb)
      (colToChars_letters column) (rowToChars_ne_nil hr)
      (rowToChars_digits row) (rowToChars_head_ne_zero row hr)
    rw [h, parseRowAcc_rowToChars, parseColAcc_colToChars]
  · intro s hs
    obtain ⟨L, D, hsd, hl1, hl3, hL, hDne, hD, h0⟩ := hs
    have hLne : L ≠ [] := by
      intro he
      subst he
      simp at hl1
    refine ⟨parseRowAcc 0 D, parseColAcc 0 L,
            parse_ok_decomp hsd hl1 hl3 hL hDne hD h0, ?_⟩
    unfold format upcase
    rw [hsd, rowToChars_parseRowAcc D hDne hD h0,
        colToChars_parseColAcc L hLne hL, List.map_append,
        map_upChar_digits hD]

/-- Witness for C4 at the concrete inputs (99, 26) ↦ `"Z99"` and the
lower-case address `"b2"`. -/
theorem claim_C4_witness :
    parse (format 99 26) = .ok (99, 26) ∧
    (∃ row column : Nat, parse "b2" = .ok (row, column) ∧
        format row column = upcase "b2") := by
  constructor
  · exact claim_C4_parse_format_bijection.1 99 26 (by decide) (by decide)
      (by decide)
  · exact claim_C4_parse_format_bijection.2 "b2"
      ⟨['b'], ['2'], rfl, by decide, by decide, by decide, by decide,
       by decide, by decide⟩

/-- Claim C5: `parse` succeeds exactly on the strings of the accepted address
syntax `^[A-Za-z]{1,3}[1-9][0-9]*$` (one to three column letters,
case-insensitive, then a 1-based row number), and fails with `InvalidAddress`
on every other input. -/
theorem claim_C5_parse_exact_language (s : String) :
    (matchesAddrRegex s → ∃ rc : Nat × Nat, parse s = .ok rc) ∧
    (¬ matchesAddrRegex s → parse s = .error .invalidAddress) := by
  constructor
  · intro hs
    obtain ⟨L, D, hsd, hl1, hl3, hL, hDne, hD, h0⟩ := hs
    exact ⟨_, parse_ok_decomp hsd hl1 hl3 hL hDne hD h0⟩
  · intro hns
    by_cases hguard : (1 ≤ (s.data.takeWhile isAsciiLetter).length
        && (s.data.takeWhile isAsciiLetter).length ≤ 3
        && !(s.data.dropWhile isAsciiLetter).isEmpty
        && (s.data.dropWhile isAsciiLetter).all isAsciiDigit
        && !((s.data.dropWhile isAsciiLetter).head? == some '0')) = true
    · exfalso
      apply hns
      have hok : parse s = .ok (parseRowAcc 0 (s.data.dropWhile isAsciiLetter),
          parseColAcc 0 (s.data.takeWhile isAsciiLetter)) := by
        simp only [parse]
        rw [if_pos hguard]
      exact regex_of_parse_ok hok
    · simp only [parse]
      rw [if_neg hguard]

/-- Witness for C5: `"B2"` is accepted, `"A0"` (zero row) is rejected with
`InvalidAddress`. -/
theorem claim_C5_witness :
    (∃ rc : Nat × Nat, parse "B2" = .ok rc) ∧
    parse "A0" = .error .invalidAddress := by
  constructor
  · exact (claim_C5_parse_exact_language "B2").1
      ⟨['B'], ['2'], rfl, by decide, by decide, by decide, by decide,
       by decide, by decide⟩
  · apply (claim_C5_parse_exact_language "A0").2
    intro hs
    obtain ⟨rc, hrc⟩ := (claim_C5_parse_exact_language "A0").1 hs
    rw [show parse "A0" = .error .invalidAddress from rfl] at hrc
    exact Except.noConfusion hrc

/-! ## Interning is idempotent (dedup invariant) -/

theorem idxOf?_append_self {α : Type} [DecidableEq α] :
    ∀ (l : List α) (x : α), idxOf? l x = none →
      idxOf? (l ++ [x]) x = some l.length := by
  intro l x
  induction l with
  | nil =>
    intro _
    simp [idxOf?]
  | cons y ys ih =>
    intro h
    simp only [idxOf?] at h
    by_cases hy : y = x
    · rw [if_pos hy] at h
      exact Option.noConfusion h
    · rw [if_neg hy] at h
      have hnone : idxOf? ys x = none := by
        cases hx : idxOf? ys x with
        | none => rfl
        | some i =>
          rw [hx] at h
          exact Option.noConfusion h
      rw [List.cons_append, idxOf?, if_neg hy, ih hnone]
      rfl

theorem intern_stable {α : Type} [DecidableEq α] (tbl : List α) (x : α) :
    intern (intern tbl x).1 x = ((intern tbl x).1, (intern tbl x).2) := by
  unfold intern
  cases h : idxOf? tbl x with
  | some i => simp [h]
  | none => simp [h, idxOf?_append_self tbl x h]

/-- Claim C6: interning the same string, or the same style record (compared
by full value equality of the font/fill/border/number-format record), twice
into its table returns the same index both times, and the table's entry count
after the second intern equals the count after the first. -/
theorem claim_C6_intern_dedup :
    (∀ (tbl : List String) (text : String),
        (intern (intern tbl text).1 text).2 = (intern tbl text).2 ∧
        (intern (intern tbl text).1 text).1.length = (intern tbl text).1.length) ∧
    (∀ (tbl : List StyleRecord) (rec : StyleRecord),
        (intern (intern tbl rec).1 rec).2 = (intern tbl rec).2 ∧
        (intern (intern tbl rec).1 rec).1.length = (intern tbl rec).1.length) := by
  constructor
  · intro tbl text
    rw [intern_stable tbl text]
    exact ⟨rfl, rfl⟩
  · intro tbl rec
    rw [intern_stable tbl rec]
    exact ⟨rfl, rfl⟩

/-! ## Cell-grid lookup/update frame lemmas -/

theorem lookupCell_update_self (cells : List ((Nat × Nat) × Cell))
    (coord : Nat × Nat) (cl : Cell) :
    lookupCell (updateCells cells coord cl) coord = some cl := by
  induction cells with
  | nil =>
    unfold updateCells lookupCell
    rw [if_pos rfl]
  | cons p rest ih =>
    obtain ⟨c0, cl0⟩ := p
    unfold updateCells
    by_cases hc : c0 = coord
    · rw [if_pos hc]
      unfold lookupCell
      rw [if_pos rfl]
    · rw [if_neg hc]
      unfold lookupCell
      rw [if_neg hc]
      exact ih


theorem lookupCell_update_other (cells : List ((Nat × Nat) × Cell))
    (coord coord2 : Nat × Nat) (cl : Cell) (h : coord2 ≠ coord) :
    lookupCell (updateCells cells coord cl) coord2 =
      lookupCell cells coord2 := by
  induction cells with
  | nil =>
    unfold updateCells lookupCell
    rw [if_neg (fun he => h he.symm)]
    rfl
  | cons p rest ih =>
    obtain ⟨c0, cl0⟩ := p
    unfold updateCells
    by_cases hc : c0 = coord
    · rw [if_pos hc]
      unfold lookupCell
      rw [if_neg (fun he => h he.symm), if_neg]
      rw [hc]
      exact fun he => h he.symm
    · rw [if_neg hc]
      unfold lookupCell
      by_cases hc2 : c0 = coord2
      · rw [if_pos hc2, if_pos hc2]
      · rw [if_neg hc2, if_neg hc2]
        exact ih

theorem find?_map_pred {α : Type} (p : α → Bool) (g : α → α)
    (h : ∀ x, p (g x) = p x) :
    ∀ l : List α, (l.map g).find? p = (l.find? p).map g := by
  intro l
  induction l with
  | nil => rfl
  | cons x xs ih =>
    rw [List.map_cons]
    by_cases hx : p x = true
    · rw [List.find?_cons_of_pos _ (by rw [h]; exact hx),
          List.find?_cons_of_pos _ hx]
      rfl
    · rw [List.find?_cons_of_neg _ (by rw [h]; exact hx),
          List.find?_cons_of_neg _ hx, ih]

theorem setValueAt_name (sh : Sheet) (r c : Nat) (t : String) :
    (sh.setValueAt r c t).name = sh.name := rfl

theorem setValueAt_cells (sh : Sheet) (r c : Nat) (t : String) :
    (sh.setValueAt r c t).cells =
      updateCells sh.cells (r, c)
        { sh.cellAt r c with value := .inlineStr t } := rfl

theorem setValueOne_name (sname : String) (r c : Nat) (t : String)
    (sh : Sheet) : (setValueOne sname r c t sh).name = sh.name := by
  unfold setValueOne
  by_cases hx : sh.name = sname
  · rw [if_pos hx, setValueAt_name]
  · rw [if_neg hx]

theorem cellAt_def (sh : Sheet) (r c : Nat) :
    sh.cellAt r c = (lookupCell sh.cells (r, c)).getD emptyCell := rfl

theorem getSheet_map_eq (wb : Workbook) (sname : String) (g : Sheet → Sheet)
    (hname : ∀ sh, (g sh).name = sh.name) :
    Workbook.getSheet { wb with sheets := wb.sheets.map g } sname =
      (wb.getSheet sname).map g := by
  unfold Workbook.getSheet
  have hp : ∀ sh : Sheet,
      (fun s : Sheet => decide (s.name = sname)) (g sh) =
        (fun s : Sheet => decide (s.name = sname)) sh := by
    intro sh
    simp only [hname]
  rw [show ({ wb with sheets := wb.sheets.map g } : Workbook).sheets =
        wb.sheets.map g from rfl]
  rw [find?_map_pred _ g hp]
  cases List.find? (fun s : Sheet => decide (s.name = sname)) wb.sheets with
  | none => rfl
  | some sh => rfl

theorem getSheet_find? {wb : Workbook} {sname : String} {sh0 : Sheet}
    (hgs : wb.getSheet sname = .ok sh0) :
    List.find? (fun s : Sheet => decide (s.name = sname)) wb.sheets =
      some sh0 := by
  unfold Workbook.getSheet at hgs
  cases hf : List.find? (fun s : Sheet => decide (s.name = sname))
      wb.sheets with
  | none =>
    rw [hf] at hgs
    exact Except.noConfusion hgs
  | some sh =>
    rw [hf] at hgs
    rw [Except.ok.inj hgs]

/-- Claim C7: reading any valid address at which no cell was ever written
never errors — `get_cell` auto-vivifies an empty cell whose externally
observable value is the missing representation (`None` at the Python
boundary). -/
theorem claim_C7_get_cell_autovivify (wb : Workbook) (sname addr : String)
    (r c : Nat) (sh : Sheet) (hp : parse addr = .ok (r, c))
    (hs : wb.getSheet sname = .ok sh)
    (hnone : lookupCell sh.cells (r, c) = none) :
    wb.getCell sname addr = .ok emptyCell ∧
      emptyCell.value.text wb.sst = none := by
  constructor
  · simp only [Workbook.getCell, hp, hs]
    rw [cellAt_def, hnone]
    rfl
  · rfl

/-- Witness for C7: in the loaded sample workbook, the never-written `"Z99"`
reads as the empty cell with no value (the `src/test.py` line 26 oracle). -/
theorem claim_C7_witness :
    wb0.getCell "Sheet1" "Z99" = .ok emptyCell ∧
      emptyCell.value.text wb0.sst = none :=
  claim_C7_get_cell_autovivify wb0 "Sheet1" "Z99" 99 26 sheet0 rfl rfl rfl

/-- Claim C9: cell values are textual at the public boundary —
`set_cell_value` stores the given text verbatim (no type coercion) and
reading it back yields exactly that text; a numerically stored cell of a
loaded document reads back as the canonical textual form the codec carries
(e.g. `"1.0"` or `"123"`), the XML value-type attribute being the codec's
choice, not the caller's. -/
theorem claim_C9_textual_values :
    (∀ (wb wb2 : Workbook) (sname addr text : String) (r c : Nat),
        parse addr = .ok (r, c) →
        wb.setCellValue sname addr text = .ok wb2 →
        wb2.valueAt sname r c = some text) ∧
    (∀ (sst : List String) (s : String) (st : Option Nat),
        (Cell.mk (.num s) st).value.text sst = some s) := by
  constructor
  · intro wb wb2 sname addr text r c hp hset
    simp only [Workbook.setCellValue, hp] at hset
    cases hgs : wb.getSheet sname with
    | error e =>
      rw [hgs] at hset
      exact Except.noConfusion hset
    | ok sh0 =>
      rw [hgs] at hset
      have hwb2 : wb2 =
          { wb with sheets := wb.sheets.map (setValueOne sname r c text) } :=
        (Except.ok.inj hset).symm
      subst hwb2
      unfold Workbook.valueAt
      rw [getSheet_map_eq wb sname _ (setValueOne_name sname r c text), hgs]
      have hp0 := List.find?_some (getSheet_find? hgs)
      have hn0 : sh0.name = sname := of_decide_eq_true hp0
      have hone : setValueOne sname r c text sh0 = sh0.setValueAt r c text := by
        unfold setValueOne
        rw [if_pos hn0]
      show ((setValueOne sname r c text sh0).cellAt r c).value.text wb.sst =
        some text
      rw [hone, cellAt_def, setValueAt_cells, lookupCell_update_self]
      rfl
  · intro sst s st
    rfl

/-- Witness for C9: setting A1 of the loaded sample workbook to `"99.9"`
reads back as exactly `"99.9"`, and a numeric cell carrying `"1.0"` reads as
`"1.0"` (the `src/test.py` lines 17 and 48 oracles). -/
theorem claim_C9_witness :
    wb0set.valueAt "Sheet1" 1 1 = some "99.9" ∧
      (Cell.mk (.num "1.0") none).value.text wb0.sst = some "1.0" :=
  ⟨claim_C9_textual_values.1 wb0 wb0set "Sheet1" "A1" "99.9" 1 1 rfl rfl,
   claim_C9_textual_values.2 wb0.sst "1.0" none⟩

/-- Claim C10: the handle obtained from `sheet.cell(row, column)` and the
handle obtained by indexing the sheet with the corresponding address string
denote the same cell — reading either yields the same value, and a value
written through the `cell(row, column)` handle is observed when reading
through the address index. -/
theorem claim_C10_cell_handle_equiv (sh : Sheet) (addr : String) (r c : Nat)
    (hp : parse addr = .ok (r, c)) :
    sh.atAddr addr = .ok (sh.cell r c) ∧
    (∀ v : String,
        (sh.setValueAt r c v).atAddr addr =
          .ok ((sh.setValueAt r c v).cell r c) ∧
        ((sh.setValueAt r c v).cell r c).value = .inlineStr v) := by
  constructor
  · simp only [Sheet.atAddr, hp]
    rfl
  · intro v
    constructor
    · simp only [Sheet.atAddr, hp]
      rfl
    · show ((sh.setValueAt r c v).cellAt r c).value = .inlineStr v
      rw [cellAt_def, setValueAt_cells, lookupCell_update_self]
      rfl

/-- Witness for C10 on the sample sheet at B1 (`src/test.py` lines 51–58):
`cell(row=1, column=2)` and `"B1"` agree, and a write through the coordinate
handle is visible through the address. -/
theorem claim_C10_witness :
    sheet0.atAddr "B1" = .ok (sheet0.cell 1 2) ∧
      ((sheet0.setValueAt 1 2 "3.14").atAddr "B1" =
          .ok ((sheet0.setValueAt 1 2 "3.14").cell 1 2) ∧
        ((sheet0.setValueAt 1 2 "3.14").cell 1 2).value = .inlineStr "3.14") :=
  ⟨(claim_C10_cell_handle_equiv sheet0 "B1" 1 2 rfl).1,
   (claim_C10_cell_handle_equiv sheet0 "B1" 1 2 rfl).2 "3.14"⟩


/-! ## Archive lookup lemmas -/

theorem lookupPart_cons_self (n : PartName) (b : PartBytes)
    (rest : List (PartName × PartBytes)) :
    lookupPart ((n, b) :: rest) n = some b := by
  unfold lookupPart
  rw [if_pos rfl]

theorem lookupPart_cons_ne (n0 n : PartName) (b : PartBytes)
    (rest : List (PartName × PartBytes)) (h : n0 ≠ n) :
    lookupPart ((n0, b) :: rest) n = lookupPart rest n := by
  conv_lhs => unfold lookupPart
  rw [if_neg h]

theorem lookupPart_append_left {a : List (PartName × PartBytes)}
    (b : List (PartName × PartBytes)) (n : PartName) {x : PartBytes}
    (h : lookupPart a n = some x) : lookupPart (a ++ b) n = some x := by
  induction a with
  | nil => exact Option.noConfusion h
  | cons p rest ih =>
    obtain ⟨n0, pb⟩ := p
    rw [List.cons_append]
    by_cases hn : n0 = n
    · subst hn
      rw [lookupPart_cons_self] at h ⊢
      exact h
    · rw [lookupPart_cons_ne _ _ _ _ hn] at h ⊢
      exact ih h

theorem lookupPart_append_right {a : List (PartName × PartBytes)}
    (b : List (PartName × PartBytes)) (n : PartName)
    (h : lookupPart a n = none) : lookupPart (a ++ b) n = lookupPart b n := by
  induction a with
  | nil => rfl
  | cons p rest ih =>
    obtain ⟨n0, pb⟩ := p
    rw [List.cons_append]
    by_cases hn : n0 = n
    · subst hn
      rw [lookupPart_cons_self] at h
      exact Option.noConfusion h
    · rw [lookupPart_cons_ne _ _ _ _ hn] at h ⊢
      exact ih h

theorem lookupPart_filter (l : List (PartName × PartBytes))
    (f : PartName × PartBytes → Bool) (n : PartName)
    (hf : ∀ b : PartBytes, f (n, b) = true) :
    lookupPart (l.filter f) n = lookupPart l n := by
  induction l with
  | nil => rfl
  | cons p rest ih =>
    obtain ⟨n0, b0⟩ := p
    by_cases hn : n0 = n
    · subst hn
      rw [List.filter_cons_of_pos (hf b0), lookupPart_cons_self,
          lookupPart_cons_self]
    · cases hfb : f (n0, b0) with
      | true =>
        rw [List.filter_cons_of_pos hfb, lookupPart_cons_ne _ _ _ _ hn,
            lookupPart_cons_ne _ _ _ _ hn]
        exact ih
      | false =>
        rw [List.filter_cons_of_neg (by rw [hfb]; exact Bool.false_ne_true),
            lookupPart_cons_ne _ _ _ _ hn]
        exact ih

/-! ## Generated worksheet entries -/

theorem sheetEntries_mem :
    ∀ (sheets : List Sheet) (k : Nat) (p : PartName × PartBytes),
      p ∈ sheetEntries k sheets →
        ∃ j, j < sheets.length ∧ p.1 = PartName.sheet (k + j) := by
  intro sheets
  induction sheets with
  | nil =>
    intro k p h
    exact absurd h (List.not_mem_nil p)
  | cons sh rest ih =>
    intro k p h
    rcases List.mem_cons.mp h with h | h
    · refine ⟨0, by simp, ?_⟩
      rw [h]
      rfl
    · obtain ⟨j, hj, hp⟩ := ih (k + 1) p h
      refine ⟨j + 1, by simp; omega, ?_⟩
      rw [hp]
      congr 1
      omega

theorem lookupPart_sheetEntries_nonsheet :
    ∀ (sheets : List Sheet) (k : Nat) (n : PartName),
      (∀ i, n ≠ PartName.sheet i) →
      lookupPart (sheetEntries k sheets) n = none := by
  intro sheets
  induction sheets with
  | nil => intro k n _; rfl
  | cons sh rest ih =>
    intro k n h
    unfold sheetEntries
    rw [lookupPart_cons_ne _ _ _ _ (fun he => h k he.symm)]
    exact ih (k + 1) n h

theorem lookupPart_sheetEntries_get :
    ∀ (sheets : List Sheet) (k j : Nat) (hj : j < sheets.length),
      lookupPart (sheetEntries k sheets) (PartName.sheet (k + j)) =
        some (.sheetPart (sheets.get ⟨j, hj⟩).cells) := by
  intro sheets
  induction sheets with
  | nil =>
    intro k j hj
    exact absurd hj (by simp)
  | cons sh rest ih =>
    intro k j hj
    cases j with
    | zero =>
      unfold sheetEntries
      rw [show k + 0 = k from rfl, lookupPart_cons_self]
      rfl
    | succ j2 =>
      unfold sheetEntries
      rw [lookupPart_cons_ne _ _ _ _ (by intro he; injection he with he2; omega)]
      have hj2 : j2 < rest.length := by
        simp at hj
        omega
      have := ih (k + 1) j2 hj2
      rw [show k + 1 + j2 = k + (j2 + 1) from by omega] at this
      rw [this]
      rfl


/-! ## loadSheets: reconstruction, length, error shape -/

theorem loadSheets_nil (a : Archive) (k : Nat) :
    loadSheets a [] k = .ok [] := rfl

theorem loadSheets_cons (a : Archive) (n : String) (rest : List String)
    (i : Nat) :
    loadSheets a (n :: rest) i =
      match lookupPart a (.sheet i) with
      | some (.sheetPart cells) =>
        match loadSheets a rest (i + 1) with
        | .ok sheets => .ok ({ name := n, cells := cells } :: sheets)
        | .error e => .error e
      | _ => .error (.structuralParseError (.sheet i)) := rfl

theorem loadSheets_length :
    ∀ (names : List String) (a : Archive) (k : Nat) (sheets : List Sheet),
      loadSheets a names k = .ok sheets → sheets.length = names.length := by
  intro names
  induction names with
  | nil =>
    intro a k sheets h
    rw [loadSheets_nil] at h
    rw [← Except.ok.inj h]
    rfl
  | cons n rest ih =>
    intro a k sheets h
    rw [loadSheets_cons] at h
    cases hl : lookupPart a (.sheet k) with
    | none =>
      rw [hl] at h
      exact Except.noConfusion h
    | some pb =>
      rw [hl] at h
      cases pb with
      | sheetPart cells =>
        cases hr : loadSheets a rest (k + 1) with
        | error e =>
          rw [hr] at h
          exact Except.noConfusion h
        | ok sheets2 =>
          rw [hr] at h
          rw [← Except.ok.inj h]
          simp only [List.length_cons]
          rw [ih a (k + 1) sheets2 hr]
      | wbPart x =>
        exact Except.noConfusion h
      | sstPart x =>
        exact Except.noConfusion h
      | stylesPart x =>
        exact Except.noConfusion h
      | rawPart x =>
        exact Except.noConfusion h

theorem loadSheets_error_shape :
    ∀ (names : List String) (a : Archive) (k : Nat) (e : XlsxError),
      loadSheets a names k = .error e →
        ∃ i, e = .structuralParseError (.sheet i) := by
  intro names
  induction names with
  | nil =>
    intro a k e h
    rw [loadSheets_nil] at h
    exact Except.noConfusion h
  | cons n rest ih =>
    intro a k e h
    rw [loadSheets_cons] at h
    cases hl : lookupPart a (.sheet k) with
    | none =>
      rw [hl] at h
      exact ⟨k, (Except.error.inj h).symm⟩
    | some pb =>
      rw [hl] at h
      cases pb with
      | sheetPart cells =>
        cases hr : loadSheets a rest (k + 1) with
        | error e2 =>
          rw [hr] at h
          rw [← Except.error.inj h]
          exact ih a (k + 1) e2 hr
        | ok sheets2 =>
          rw [hr] at h
          exact Except.noConfusion h
      | wbPart x =>
        exact ⟨k, (Except.error.inj h).symm⟩
      | sstPart x =>
        exact ⟨k, (Except.error.inj h).symm⟩
      | stylesPart x =>
        exact ⟨k, (Except.error.inj h).symm⟩
      | rawPart x =>
        exact ⟨k, (Except.error.inj h).symm⟩

theorem loadSheets_of_lookups :
    ∀ (sheets : List Sheet) (a : Archive) (k : Nat),
      (∀ j (hj : j < sheets.length),
          lookupPart a (.sheet (k + j)) =
            some (.sheetPart (sheets.get ⟨j, hj⟩).cells)) →
      loadSheets a (sheets.map Sheet.name) k = .ok sheets := by
  intro sheets
  induction sheets with
  | nil =>
    intro a k _
    rfl
  | cons sh rest ih =>
    intro a k h
    have h0 := h 0 (by simp)
    rw [show k + 0 = k from rfl] at h0
    rw [List.map_cons, loadSheets_cons, h0]
    have hrec : loadSheets a (rest.map Sheet.name) (k + 1) = .ok rest := by
      apply ih
      intro j hj
      have := h (j + 1) (by simp; omega)
      rw [show k + (j + 1) = k + 1 + j from by omega] at this
      exact this
    rw [hrec]
    rfl

/-! ## The consumed part names -/

theorem workbook_mem_consumed (n : Nat) :
    PartName.workbook ∈ consumedNames n := by
  unfold consumedNames
  exact List.mem_append.mpr (Or.inl (by simp))

theorem sharedStrings_mem_consumed (n : Nat) :
    PartName.sharedStrings ∈ consumedNames n := by
  unfold consumedNames
  exact List.mem_append.mpr (Or.inl (by simp))

theorem styles_mem_consumed (n : Nat) :
    PartName.styles ∈ consumedNames n := by
  unfold consumedNames
  exact List.mem_append.mpr (Or.inl (by simp))

theorem sheet_mem_consumed {j n : Nat} (h : j < n) :
    PartName.sheet j ∈ consumedNames n := by
  unfold consumedNames
  refine List.mem_append.mpr (Or.inr ?_)
  exact List.mem_map.mpr ⟨j, List.mem_range.mpr h, rfl⟩

theorem contentTypes_not_consumed (n : Nat) :
    PartName.contentTypes ∉ consumedNames n := by
  unfold consumedNames
  intro h
  rcases List.mem_append.mp h with h | h
  · simp at h
  · obtain ⟨i, _, he⟩ := List.mem_map.mp h
    exact PartName.noConfusion he

theorem contains_true_of_mem {n : PartName} {l : List PartName}
    (h : n ∈ l) : l.contains n = true :=
  List.elem_eq_true_of_mem h

theorem contains_false_of_not_mem {n : PartName} {l : List PartName}
    (h : n ∉ l) : l.contains n = false := by
  cases hc : l.contains n with
  | false => rfl
  | true => exact absurd (List.mem_of_elem_eq_true hc) h


/-! ## Successful load: inversion and the workbook invariant -/

theorem load_ok_inv {a : Archive} {wb : Workbook} (h : load a = .ok wb) :
    ∃ names : List String,
      lookupPart a .workbook = some (.wbPart names) ∧
      loadSheets a names 0 = .ok wb.sheets ∧
      (lookupPart a .contentTypes).isSome = true ∧
      wb.passthrough =
        a.filter (fun p => !((consumedNames names.length).contains p.1)) ∧
      wb.sst = (match lookupPart a .sharedStrings with
        | some (.sstPart s) => s
        | _ => []) ∧
      wb.styleTable = (match lookupPart a .styles with
        | some (.stylesPart s) => s
        | _ => []) := by
  unfold load at h
  cases hct : lookupPart a .contentTypes with
  | none =>
    rw [hct] at h
    exact Except.noConfusion h
  | some ctb =>
    rw [hct] at h
    cases hw : lookupPart a .workbook with
    | none =>
      rw [hw] at h
      exact Except.noConfusion h
    | some pb =>
      rw [hw] at h
      cases pb with
      | wbPart names =>
        simp only [] at h
        cases hls : loadSheets a names 0 with
        | error e =>
          rw [hls] at h
          exact Except.noConfusion h
        | ok sheets =>
          rw [hls] at h
          simp only [] at h
          have hwb := (Except.ok.inj h).symm
          subst hwb
          exact ⟨names, rfl, hls, rfl, rfl, rfl, rfl⟩
      | sheetPart x =>
        exact Except.noConfusion h
      | sstPart x =>
        exact Except.noConfusion h
      | stylesPart x =>
        exact Except.noConfusion h
      | rawPart x =>
        exact Except.noConfusion h

theorem load_wellFormed {a : Archive} {wb : Workbook} (h : load a = .ok wb) :
    wb.wellFormed := by
  obtain ⟨names, hw, hls, hct, hpt, _, _⟩ := load_ok_inv h
  have hlen : wb.sheets.length = names.length :=
    loadSheets_length names a 0 wb.sheets hls
  constructor
  · rw [hpt, lookupPart_filter _ _ _ (fun b => ?_)]
    · exact hct
    · rw [contains_false_of_not_mem (contentTypes_not_consumed names.length)]
      rfl
  · intro p hp
    rw [hlen]
    rw [hpt] at hp
    have hf := (List.mem_filter.mp hp).2
    intro hmem
    rw [contains_true_of_mem hmem] at hf
    exact Bool.noConfusion hf

/-! ## What save emits, part by part -/

theorem save_lookup_contentTypes (wb : Workbook) :
    lookupPart (save wb) .contentTypes =
      lookupPart wb.passthrough .contentTypes := by
  unfold save
  rw [lookupPart_cons_ne _ _ _ _ (by decide),
      lookupPart_cons_ne _ _ _ _ (by decide),
      lookupPart_cons_ne _ _ _ _ (by decide),
      lookupPart_append_right _ _
        (lookupPart_sheetEntries_nonsheet _ _ _
          (fun i he => PartName.noConfusion he))]

theorem save_lookup_workbook (wb : Workbook) :
    lookupPart (save wb) .workbook =
      some (.wbPart (wb.sheets.map Sheet.name)) := by
  unfold save
  exact lookupPart_cons_self _ _ _

theorem save_lookup_sharedStrings (wb : Workbook) :
    lookupPart (save wb) .sharedStrings = some (.sstPart wb.sst) := by
  unfold save
  rw [lookupPart_cons_ne _ _ _ _ (by decide)]
  exact lookupPart_cons_self _ _ _

theorem save_lookup_styles (wb : Workbook) :
    lookupPart (save wb) .styles = some (.stylesPart wb.styleTable) := by
  unfold save
  rw [lookupPart_cons_ne _ _ _ _ (by decide),
      lookupPart_cons_ne _ _ _ _ (by decide)]
  exact lookupPart_cons_self _ _ _

theorem save_lookup_sheet (wb : Workbook) (j : Nat)
    (hj : j < wb.sheets.length) :
    lookupPart (save wb) (.sheet j) =
      some (.sheetPart (wb.sheets.get ⟨j, hj⟩).cells) := by
  unfold save
  rw [lookupPart_cons_ne _ _ _ _ (by intro he; exact PartName.noConfusion he),
      lookupPart_cons_ne _ _ _ _ (by intro he; exact PartName.noConfusion he),
      lookupPart_cons_ne _ _ _ _ (by intro he; exact PartName.noConfusion he)]
  apply lookupPart_append_left
  have := lookupPart_sheetEntries_get wb.sheets 0 j hj
  rw [Nat.zero_add] at this
  exact this

theorem save_filter (wb : Workbook)
    (h : ∀ p ∈ wb.passthrough, p.1 ∉ consumedNames wb.sheets.length) :
    (save wb).filter
        (fun p =>
          !((consumedNames (wb.sheets.map Sheet.name).length).contains p.1)) =
      wb.passthrough := by
  unfold save
  rw [List.length_map]
  have hnil : (sheetEntries 0 wb.sheets).filter
      (fun p => !((consumedNames wb.sheets.length).contains p.1)) = [] := by
    apply List.filter_eq_nil_iff.mpr
    intro p hp hf
    obtain ⟨j, hj, hpn⟩ := sheetEntries_mem wb.sheets 0 p hp
    rw [Nat.zero_add] at hpn
    rw [hpn, contains_true_of_mem (sheet_mem_consumed hj)] at hf
    exact absurd hf (by decide)
  have hself : wb.passthrough.filter
      (fun p => !((consumedNames wb.sheets.length).contains p.1)) =
      wb.passthrough := by
    apply List.filter_eq_self.mpr
    intro p hp
    rw [contains_false_of_not_mem (h p hp)]
    decide
  rw [List.filter_cons_of_neg (by
    rw [contains_true_of_mem (workbook_mem_consumed wb.sheets.length)]
    decide)]
  rw [List.filter_cons_of_neg (by
    rw [contains_true_of_mem (sharedStrings_mem_consumed wb.sheets.length)]
    decide)]
  rw [List.filter_cons_of_neg (by
    rw [contains_true_of_mem (styles_mem_consumed wb.sheets.length)]
    decide)]
  rw [List.filter_append, hnil, List.nil_append, hself]

/-! ## The round trip -/

theorem save_load_roundtrip {wb : Workbook} (h : wb.wellFormed) :
    load (save wb) = .ok wb := by
  obtain ⟨hct, hpass⟩ := h
  have h3 : loadSheets (save wb) (wb.sheets.map Sheet.name) 0 = .ok wb.sheets := by
    apply loadSheets_of_lookups
    intro j hj
    rw [Nat.zero_add]
    exact save_lookup_sheet wb j hj
  obtain ⟨ctb, hctb⟩ := Option.isSome_iff_exists.mp hct
  have h1 : lookupPart (save wb) .contentTypes = some ctb := by
    rw [save_lookup_contentTypes]
    exact hctb
  unfold load
  simp only [h1, save_lookup_workbook, h3, save_lookup_sharedStrings,
             save_lookup_styles, save_filter wb hpass]


/-! ## Mutation: inversion, invariant preservation, read-back, frame -/

theorem setCellValue_ok_inv {wb wb2 : Workbook} {sname addr text : String}
    (h : wb.setCellValue sname addr text = .ok wb2) :
    ∃ r c sh0, parse addr = .ok (r, c) ∧ wb.getSheet sname = .ok sh0 ∧
      wb2 = { wb with sheets := wb.sheets.map (setValueOne sname r c text) } := by
  unfold Workbook.setCellValue at h
  cases hp : parse addr with
  | error e =>
    rw [hp] at h
    exact Except.noConfusion h
  | ok rc =>
    obtain ⟨r, c⟩ := rc
    rw [hp] at h
    simp only [] at h
    cases hgs : wb.getSheet sname with
    | error e =>
      rw [hgs] at h
      exact Except.noConfusion h
    | ok sh0 =>
      rw [hgs] at h
      simp only [] at h
      exact ⟨r, c, sh0, rfl, rfl, (Except.ok.inj h).symm⟩

theorem setCellValue_wellFormed {wb wb2 : Workbook} {sname addr text : String}
    (h : wb.setCellValue sname addr text = .ok wb2) (hwf : wb.wellFormed) :
    wb2.wellFormed := by
  obtain ⟨r, c, sh0, hp, hgs, hwb2⟩ := setCellValue_ok_inv h
  subst hwb2
  obtain ⟨h1, h2⟩ := hwf
  refine ⟨h1, ?_⟩
  intro p hp2
  show p.1 ∉ consumedNames (wb.sheets.map (setValueOne sname r c text)).length
  rw [List.length_map]
  exact h2 p hp2

theorem setCellValue_value_self {wb wb2 : Workbook} {sname addr text : String}
    {r c : Nat} (hp : parse addr = .ok (r, c))
    (hset : wb.setCellValue sname addr text = .ok wb2) :
    wb2.valueAt sname r c = some text := by
  obtain ⟨r2, c2, sh0, hp2, hgs, hwb2⟩ := setCellValue_ok_inv hset
  rw [hp] at hp2
  injection Except.ok.inj hp2 with hr hc
  subst hr
  subst hc
  subst hwb2
  unfold Workbook.valueAt
  rw [getSheet_map_eq wb sname _ (setValueOne_name sname r c text), hgs]
  have hfind := List.find?_some (getSheet_find? hgs)
  have hn0 : sh0.name = sname := of_decide_eq_true hfind
  show ((setValueOne sname r c text sh0).cellAt r c).value.text wb.sst =
    some text
  unfold setValueOne
  rw [if_pos hn0, cellAt_def, setValueAt_cells, lookupCell_update_self]
  rfl

theorem setCellValue_value_frame {wb wb2 : Workbook} {sname addr text : String}
    {r c : Nat} (hp : parse addr = .ok (r, c))
    (hset : wb.setCellValue sname addr text = .ok wb2)
    (sname2 : String) (r2 c2 : Nat)
    (hne : sname2 ≠ sname ∨ (r2, c2) ≠ (r, c)) :
    wb2.valueAt sname2 r2 c2 = wb.valueAt sname2 r2 c2 := by
  obtain ⟨r3, c3, sh0, hp2, hgs, hwb2⟩ := setCellValue_ok_inv hset
  rw [hp] at hp2
  injection Except.ok.inj hp2 with hr hc
  subst hr
  subst hc
  subst hwb2
  unfold Workbook.valueAt
  rw [getSheet_map_eq wb sname2 _ (setValueOne_name sname r c text)]
  cases hgs2 : wb.getSheet sname2 with
  | error e => rfl
  | ok sh2 =>
    show ((setValueOne sname r c text sh2).cellAt r2 c2).value.text wb.sst =
      (sh2.cellAt r2 c2).value.text wb.sst
    unfold setValueOne
    by_cases hn : sh2.name = sname
    · rw [if_pos hn]
      have hfind2 := List.find?_some (getSheet_find? hgs2)
      have hn2 : sh2.name = sname2 := of_decide_eq_true hfind2
      rcases hne with hne | hne
      · exact absurd (hn2.symm.trans hn) hne
      · rw [cellAt_def, cellAt_def, setValueAt_cells,
            lookupCell_update_other _ _ _ _ hne]
    · rw [if_neg hn]

/-- Claim C1: for every Workbook loaded from a valid archive and not mutated
afterwards, loading the bytes produced by `save` yields a Workbook whose
sheet names, cell values, and cell style assignments are identical to the
original's. -/
theorem claim_C1_load_save_roundtrip (a : Archive) (wb : Workbook)
    (hl : load a = .ok wb) :
    ∃ wb2, load (save wb) = .ok wb2 ∧
      wb2.sheetNames = wb.sheetNames ∧
      (∀ (sname : String) (r c : Nat),
          wb2.valueAt sname r c = wb.valueAt sname r c) ∧
      (∀ (sname : String) (r c : Nat),
          wb2.styleIdxAt sname r c = wb.styleIdxAt sname r c) :=
  ⟨wb, save_load_roundtrip (load_wellFormed hl), rfl,
   fun _ _ _ => rfl, fun _ _ _ => rfl⟩

/-- Witness for C1 at the concrete sample archive `arch0`. -/
theorem claim_C1_witness :
    ∃ wb2, load (save wb0) = .ok wb2 ∧
      wb2.sheetNames = wb0.sheetNames ∧
      (∀ (sname : String) (r c : Nat),
          wb2.valueAt sname r c = wb0.valueAt sname r c) ∧
      (∀ (sname : String) (r c : Nat),
          wb2.styleIdxAt sname r c = wb0.styleIdxAt sname r c) :=
  claim_C1_load_save_roundtrip arch0 wb0 rfl

/-- Claim C2: `save` called twice with no intervening mutation produces
byte-identical archive output both times, and neither call changes the
Workbook's state (`saveOp` is the state-transition form of `save`:
spec §4.6's state machine). -/
theorem claim_C2_save_idempotent (wb : Workbook) :
    (saveOp wb).2 = wb ∧ (saveOp ((saveOp wb).2)).1 = (saveOp wb).1 :=
  ⟨rfl, rfl⟩

/-- Claim C3: editing one cell of a loaded workbook, saving, and reloading
shows the new value at the edited address while every other cell of every
sheet reads exactly as in the original workbook — mutation is isolated. -/
theorem claim_C3_mutation_isolation (a : Archive) (wb wb2 : Workbook)
    (sname addr text : String) (r c : Nat)
    (hl : load a = .ok wb) (hp : parse addr = .ok (r, c))
    (hset : wb.setCellValue sname addr text = .ok wb2) :
    ∃ wb3, load (save wb2) = .ok wb3 ∧
      wb3.valueAt sname r c = some text ∧
      ∀ (sname2 : String) (r2 c2 : Nat),
        sname2 ≠ sname ∨ (r2, c2) ≠ (r, c) →
        wb3.valueAt sname2 r2 c2 = wb.valueAt sname2 r2 c2 :=
  ⟨wb2, save_load_roundtrip (setCellValue_wellFormed hset (load_wellFormed hl)),
   setCellValue_value_self hp hset,
   fun sname2 r2 c2 hne => setCellValue_value_frame hp hset sname2 r2 c2 hne⟩

/-- Witness for C3: the `src/test.py` scenario — set A1 of the sample to
`"99.9"`, save, reload; A1 reads `"99.9"` and every other cell (e.g. B2)
reads its original value. -/
theorem claim_C3_witness :
    ∃ wb3, load (save wb0set) = .ok wb3 ∧
      wb3.valueAt "Sheet1" 1 1 = some "99.9" ∧
      ∀ (sname2 : String) (r2 c2 : Nat),
        sname2 ≠ "Sheet1" ∨ (r2, c2) ≠ (1, 1) →
        wb3.valueAt sname2 r2 c2 = wb0.valueAt sname2 r2 c2 :=
  claim_C3_mutation_isolation arch0 wb0 wb0set "Sheet1" "A1" "99.9" 1 1
    rfl rfl rfl

/-- Claim C8: `load` is atomic with respect to errors — a missing container
part is `CorruptArchive`, an unrecognizable package is `UnsupportedFormat`, a
malformed required part is a structural parse error carrying that part's
name, and such errors propagate immediately with no partial Workbook (the
result is an `Except`, either exactly one error or a whole Workbook); absent
optional parts (shared strings, styles) make `load` succeed with the
corresponding table empty, never an error. -/
theorem claim_C8_load_error_taxonomy (a : Archive) :
    (lookupPart a .contentTypes = none → load a = .error .corruptArchive) ∧
    (∀ b, lookupPart a .contentTypes = some b →
        lookupPart a .workbook = none → load a = .error .unsupportedFormat) ∧
    (∀ b d, lookupPart a .contentTypes = some b →
        lookupPart a .workbook = some (.rawPart d) →
        load a = .error (.structuralParseError .workbook)) ∧
    (∀ names e, loadSheets a names 0 = .error e →
        ∃ i, e = .structuralParseError (.sheet i)) ∧
    (∀ b names e, lookupPart a .contentTypes = some b →
        lookupPart a .workbook = some (.wbPart names) →
        loadSheets a names 0 = .error e → load a = .error e) ∧
    (∀ b names sheets, lookupPart a .contentTypes = some b →
        lookupPart a .workbook = some (.wbPart names) →
        loadSheets a names 0 = .ok sheets → ∃ wb, load a = .ok wb) ∧
    (∀ wb, load a = .ok wb → lookupPart a .sharedStrings = none →
        wb.sst = []) ∧
    (∀ wb, load a = .ok wb → lookupPart a .styles = none →
        wb.styleTable = []) := by
  refine ⟨?_, ?_, ?_, ?_, ?_, ?_, ?_, ?_⟩
  · intro h
    simp only [load, h]
  · intro b hct hw
    simp only [load, hct, hw]
  · intro b d hct hw
    simp only [load, hct, hw]
  · intro names e h
    exact loadSheets_error_shape names a 0 e h
  · intro b names e hct hw hls
    simp only [load, hct, hw, hls]
  · intro b names sheets hct hw hls
    refine ⟨{ sheets := sheets,
              sst := (match lookupPart a .sharedStrings with
                | some (.sstPart s) => s
                | _ => []),
              styleTable := (match lookupPart a .styles with
                | some (.stylesPart s) => s
                | _ => []),
              passthrough := a.filter
                (fun p => !((consumedNames names.length).contains p.1)) }, ?_⟩
    simp only [load, hct, hw, hls]
  · intro wb hwb hnone
    obtain ⟨names, _, _, _, _, hsst, _⟩ := load_ok_inv hwb
    rw [hnone] at hsst
    exact hsst
  · intro wb hwb hnone
    obtain ⟨names, _, _, _, _, _, hsty⟩ := load_ok_inv hwb
    rw [hnone] at hsty
    exact hsty

/-- Witness for C8: each error kind and each optional-part default exercised
at a concrete archive. -/
theorem claim_C8_witness :
    load [] = .error .corruptArchive ∧
    load [(.contentTypes, .rawPart "ct")] = .error .unsupportedFormat ∧
    load [(.contentTypes, .rawPart "ct"), (.workbook, .rawPart "x")] =
      .error (.structuralParseError .workbook) ∧
    (∃ i, XlsxError.structuralParseError (.sheet 0) =
        .structuralParseError (.sheet i)) ∧
    load [(.contentTypes, .rawPart "ct"), (.workbook, .wbPart ["S"])] =
      .error (.structuralParseError (.sheet 0)) ∧
    (∃ wb, load [(.contentTypes, .rawPart "ct"), (.workbook, .wbPart [])] =
        .ok wb) ∧
    wb8.sst = [] ∧ wb8.styleTable = [] :=
  ⟨(claim_C8_load_error_taxonomy []).1 rfl,
   (claim_C8_load_error_taxonomy [(.contentTypes, .rawPart "ct")]).2.1
     (.rawPart "ct") rfl rfl,
   (claim_C8_load_error_taxonomy
       [(.contentTypes, .rawPart "ct"), (.workbook, .rawPart "x")]).2.2.1
     (.rawPart "ct") "x" rfl rfl,
   (claim_C8_load_error_taxonomy []).2.2.2.1 ["S"]
     (.structuralParseError (.sheet 0)) rfl,
   (claim_C8_load_error_taxonomy
       [(.contentTypes, .rawPart "ct"), (.workbook, .wbPart ["S"])]).2.2.2.2.1
     (.rawPart "ct") ["S"] (.structuralParseError (.sheet 0)) rfl rfl rfl,
   (claim_C8_load_error_taxonomy
       [(.contentTypes, .rawPart "ct"), (.workbook, .wbPart [])]).2.2.2.2.2.1
     (.rawPart "ct") [] [] rfl rfl rfl,
   (claim_C8_load_error_taxonomy
       [(.contentTypes, .rawPart "ct"), (.workbook, .wbPart [])]).2.2.2.2.2.2.1
     wb8 rfl rfl,
   (claim_C8_load_error_taxonomy
       [(.contentTypes, .rawPart "ct"), (.workbook, .wbPart [])]).2.2.2.2.2.2.2
     wb8 rfl rfl⟩

end Xlsx
